import Mathlib

/-!
Verification of the `juju/cmd` super-command resolution core.

A shallow embedding of the command-registration, command-resolution,
alias-substitution, fuzzy-matching and alias-file-parsing logic of the
`juju/cmd` Go library (`supercommand.go` and the alias-file parser), together
with proofs of the behavioural properties stated in the specification.

Go strings are modelled as Lean `String`s (all names involved are ASCII, so
byte indexing in Go coincides with character indexing here); Go byte-wise
string traversal is modelled over `List Char`.  Go maps are modelled as
association lists looked up with `List.lookup`; the registration API only ever
inserts fresh keys, so association-list lookup agrees with Go map lookup.
Go `panic` in the registration API is modelled by `Except.error`.
-/

namespace JujuCmd

/-! ## The Levenshtein distance computation (`supercommand.go`, `levenshteinDistance`)

The Go function:

```
func levenshteinDistance(a, b string) int {
    la := len(a)
    lb := len(b)
    d := make([]int, la+1)
    var lastdiag, olddiag, temp int
    for i := 1; i <= la; i++ {
        d[i] = i
    }
    for i := 1; i <= lb; i++ {
        d[0] = i
        lastdiag = i - 1
        for j := 1; j <= la; j++ {
            olddiag = d[j]
            min := d[j] + 1
            if (d[j-1] + 1) < min {
                min = d[j-1] + 1
            }
            if a[j-1] == b[i-1] {
                temp = 0
            } else {
                temp = 1
            }
            if (lastdiag + temp) < min {
                min = lastdiag + temp
            }
            d[j] = min
            lastdiag = olddiag
        }
    }
    return d[la]
}
```

The two-row in-place update is translated functionally: `levRowAux` is the
inner loop over `j` (the remaining characters of `a` paired with the remaining
entries of the previous row; `lastdiag` carries `d[j-1]`'s previous-row value,
`nprev` carries the freshly written `d[j-1]`), `levRow` performs one outer
iteration (`d[0] = i; lastdiag = i - 1`), and `levLoop` is the outer loop over
the characters of `b` with `i` the 1-based row counter.  The result is the
final value of `d[la]`, the last entry of the row. -/

/-- Inner loop of the Go `levenshteinDistance`: processes the remaining
characters of `a` against the single character `bi` of `b`, given the
remaining entries of the previous row, `lastdiag = d[j-1]` (previous row) and
`nprev = d[j-1]` (current row). Produces the remaining entries of the new
row. -/
def levRowAux (bi : Char) : List Char → List Nat → Nat → Nat → List Nat
  | aj :: arest, pj :: prest, lastdiag, nprev =>
      let temp := if aj = bi then 0 else 1
      let nj := min (pj + 1) (min (nprev + 1) (lastdiag + temp))
      nj :: levRowAux bi arest prest pj nj
  | _, _, _, _ => []

/-- One iteration of the Go outer loop: `d[0] = i; lastdiag = i - 1`, then the
inner sweep over `a` against previous row `prev`. -/
def levRow (bi : Char) (a : List Char) (prev : List Nat) (i : Nat) : List Nat :=
  i :: levRowAux bi a prev.tail (i - 1) i

/-- Outer loop of the Go `levenshteinDistance` over the characters of `b`;
`i` is the 1-based row index. -/
def levLoop (a : List Char) : List Char → List Nat → Nat → List Nat
  | [], d, _ => d
  | bi :: brest, d, i => levLoop a brest (levRow bi a d i) (i + 1)

/-- `levenshteinDistance a b` — functional translation of the Go function of
the same name: the initial row is `[0, 1, …, la]` and the result is `d[la]`,
the last entry of the final row. -/
def levenshteinDistance (a b : List Char) : Nat :=
  (levLoop a b (List.range (a.length + 1)) 1).getLastD 0

/-- `levenshteinDistance` on Go strings (byte-for-character, all inputs
involved are ASCII). -/
def levenshteinDistanceS (a b : String) : Nat :=
  levenshteinDistance a.data b.data

/-- The classic Levenshtein edit-distance recurrence: the distance between a
list and the empty list is its length, and the distance between `x :: xs` and
`y :: ys` is the least among deleting `x`, inserting `y`, and substituting
`x` for `y` (free when `x = y`). -/
def levSpec : List Char → List Char → Nat
  | [], ys => ys.length
  | x :: xs, [] => (x :: xs).length
  | x :: xs, y :: ys =>
      min (levSpec xs (y :: ys) + 1)
        (min (levSpec (x :: xs) ys + 1)
          (levSpec xs ys + (if x = y then 0 else 1)))

/-- The tail of the row of prefix distances: `rowTail pre rest bt` lists
`levSpec (pre ++ take m rest) bt` for `m = 1, …, rest.length`. -/
def rowTail (pre : List Char) : List Char → List Char → List Nat
  | [], _ => []
  | c :: cs, bt => levSpec (pre ++ [c]) bt :: rowTail (pre ++ [c]) cs bt

/-- The full row of prefix distances: the Go array `d` after `i` outer
iterations holds `rowSpec [] a (b.take i)`. -/
def rowSpec (pre rest bt : List Char) : List Nat :=
  levSpec pre bt :: rowTail pre rest bt

/-! ## Data model (`supercommand.go`)

`DeprecationCheck` is the Go interface of the same name, modelled by the pair
of answers its two methods return.  `Cmd` models a Go `Command` value: `id`
stands for the object's identity (Go pointer equality), `infoName` and
`infoAliases` are what `Info()` reports, `IsSuperCommand` is the method of
that name, and `subcmds` is the sub-registry carried by a `*SuperCommand`
(only the `command` field of the inner references is ever consulted, by
`RegisterSuperAlias`, so the inner registry maps names to commands).
`commandReference` and `SuperCommand` mirror the Go structs field by field,
keeping exactly the fields the verified operations read; function-valued Go
fields (`missingCallback`, `notifyRun`) and the `Log` pointer are modelled by
their nil-ness, which is all the dispatch logic inspects. -/

/-- The two answers a Go `DeprecationCheck` returns: `Deprecated()` yields
`(deprecatedFlag, replacement)` and `Obsolete()` yields `obsoleteFlag`. -/
structure DeprecationCheck where
  deprecatedFlag : Bool
  replacement : String
  obsoleteFlag : Bool
deriving DecidableEq

/-- A Go `Command` value (`id` models pointer identity). -/
inductive Cmd : Type where
  | mk (id : Nat) (infoName : String) (infoAliases : List String)
      (isSuper : Bool) (subcmds : List (String × Cmd))

def Cmd.id : Cmd → Nat
  | .mk i _ _ _ _ => i

def Cmd.infoName : Cmd → String
  | .mk _ n _ _ _ => n

def Cmd.infoAliases : Cmd → List String
  | .mk _ _ as _ _ => as

def Cmd.IsSuperCommand : Cmd → Bool
  | .mk _ _ _ s _ => s

def Cmd.subcmds : Cmd → List (String × Cmd)
  | .mk _ _ _ _ m => m

/-- The Go `commandReference` struct. -/
structure commandReference where
  name : String
  command : Cmd
  aliasFor : String
  check : Option DeprecationCheck

/-- `commandReference.Deprecated` (lines 641–646): delegates to the check if
one was supplied, otherwise reports not deprecated. -/
def commandReference.Deprecated (r : commandReference) : Bool × String :=
  match r.check with
  | none => (false, "")
  | some ch => (ch.deprecatedFlag, ch.replacement)

/-- The `SuperCommand` struct, restricted to the fields the verified
operations read.  `subcmds` and `userAliases` are Go maps, modelled as
association lists with unique keys. -/
structure SuperCommand where
  Name : String
  subcmds : List (String × commandReference)
  userAliases : List (String × List String)
  noAlias : Bool
  hasMissingCallback : Bool
  showDescription : Bool
  usagePref : String -- the Go field named usage-prefix

  hasLog : Bool
  hasNotifyRun : Bool
  action : Option commandReference

/-! ## Registration (`supercommand.go`, lines 239–322)

Go `panic` during registration is modelled by `Except.error`.  Go map
assignment of a fresh key is modelled by appending the pair. -/

/-- `SuperCommand.insert` (lines 317–322): panics when the name is taken. -/
def SuperCommand.insert (c : SuperCommand) (value : commandReference) :
    Except String SuperCommand :=
  match c.subcmds.lookup value.name with
  | some _ => .error ("command already registered: " ++ value.name)
  | none => .ok { c with subcmds := c.subcmds ++ [(value.name, value)] }

/-- A sequence of `insert`s; the first panic aborts, as in Go. -/
def SuperCommand.insertAll (c : SuperCommand) :
    List commandReference → Except String SuperCommand
  | [] => .ok c
  | v :: vs =>
    match c.insert v with
    | .error e => .error e
    | .ok c2 => c2.insertAll vs

/-- `SuperCommand.Register` (lines 239–245): inserts the command under its
`Info().Name` and under each of its `Info().Aliases`. -/
def SuperCommand.Register (c : SuperCommand) (subcmd : Cmd) :
    Except String SuperCommand :=
  c.insertAll
    ({ name := subcmd.infoName, command := subcmd, aliasFor := "", check := none } ::
      subcmd.infoAliases.map fun n =>
        { name := n, command := subcmd, aliasFor := subcmd.infoName, check := none })

/-- Models the Go test `check != nil && check.Obsolete()`. -/
def checkObsolete : Option DeprecationCheck → Bool
  | none => false
  | some ch => ch.obsoleteFlag

/-- `SuperCommand.RegisterDeprecated` (lines 250–264): skips a nil command
and an obsolete command; otherwise inserts name and aliases carrying the
check. -/
def SuperCommand.RegisterDeprecated (c : SuperCommand) (subcmd : Option Cmd)
    (check : Option DeprecationCheck) : Except String SuperCommand :=
  match subcmd with
  | none => .ok c
  | some subcmd =>
    if checkObsolete check then .ok c
    else
      c.insertAll
        ({ name := subcmd.infoName, command := subcmd, aliasFor := "", check := check } ::
          subcmd.infoAliases.map fun n =>
            { name := n, command := subcmd, aliasFor := subcmd.infoName, check := check })

/-- `SuperCommand.RegisterAlias` (lines 269–284): no-op when obsolete, panic
when the target is unknown, otherwise an `insert` sharing the target's
command. -/
def SuperCommand.RegisterAlias (c : SuperCommand) (name forName : String)
    (check : Option DeprecationCheck) : Except String SuperCommand :=
  if checkObsolete check then .ok c
  else
    match c.subcmds.lookup forName with
    | none => .error ("\"" ++ forName ++ "\" not found when registering alias")
    | some action =>
      c.insert { name := name, command := action.command, aliasFor := forName, check := check }

/-- `SuperCommand.RegisterSuperAlias` (lines 290–315): resolves `forName`
inside the registered super-command `super` and inserts its command under
the new name. -/
def SuperCommand.RegisterSuperAlias (c : SuperCommand) (name sup forName : String)
    (check : Option DeprecationCheck) : Except String SuperCommand :=
  if checkObsolete check then .ok c
  else
    match c.subcmds.lookup sup with
    | none => .error ("\"" ++ sup ++ "\" not found when registering alias")
    | some action =>
      if !action.command.IsSuperCommand then
        .error ("\"" ++ sup ++ "\" is not a SuperCommand")
      else
        match action.command.subcmds.lookup forName with
        | none => .error ("\"" ++ forName ++ "\" not found as a command in \"" ++ sup ++ "\"")
        | some inner =>
          c.insert { name := name, command := inner,
                     aliasFor := sup ++ " " ++ forName, check := check }

/-- The built-in help command object.  `help.go` is not under `src/`; only
the identity of the object and its presence in the registry matter here.
`id` 0 is reserved for it. -/
def helpCmd : Cmd := .mk 0 "help" [] false []

/-- The built-in version command object (`id` 1 reserved). -/
def versionCmd : Cmd := .mk 1 "version" [] false []

/-- `SuperCommand.init` (lines 199–221): the initial registry holds `help`,
plus `version` when a version string was configured. -/
def initSubcmds (version : String) : List (String × commandReference) :=
  [("help", { name := "", command := helpCmd, aliasFor := "", check := none })] ++
  (if version ≠ "" then
    [("version", { name := "", command := versionCmd, aliasFor := "", check := none })]
  else [])

/-! ## Resolution (`SuperCommand.Init`, lines 436–465)

The model covers `Init` up to the point where the outcome of command
resolution is determined: a selected subcommand together with the remaining
arguments (Go then proceeds to flag parsing of those arguments via the
external `gnuflag` dependency, which is outside the model), a missing-command
delegation (Go returns nil immediately, line 462), or the unrecognized-command
error (line 464). -/

/-- The outcome of the resolution phase of `SuperCommand.Init`. -/
inductive InitOutcome where
  | descriptionCheck
  | nilCommandPanic
  | indexPanic
  | selected (action : commandReference) (rest : List String)
  | missing (name : String) (rest : List String)
  | unrecognized (superName : String) (name : String)

/-- User-alias substitution (lines 445–448): when the first argument is a
user alias and `--no-alias` was not given, the alias's token sequence
replaces it. -/
def SuperCommand.substituteAlias (c : SuperCommand) (args : List String) :
    List String :=
  match args with
  | [] => []
  | a0 :: rest =>
    match c.userAliases.lookup a0 with
    | some userAlias => if !c.noAlias then userAlias ++ rest else a0 :: rest
    | none => a0 :: rest

/-- `SuperCommand.Init`, resolution phase (lines 436–465).  Empty argument
lists select the built-in help command (`nilCommandPanic` records the nil
dereference Go would perform if `"help"` were absent, and `indexPanic` the
out-of-range access Go would perform if a user alias expanded to an empty
token sequence with no further arguments). -/
def SuperCommand.Init (c : SuperCommand) (args : List String) : InitOutcome :=
  if c.showDescription then .descriptionCheck
  else
    match args with
    | [] =>
      match c.subcmds.lookup "help" with
      | some ref => .selected ref []
      | none => .nilCommandPanic
    | a0 :: rest =>
      match c.substituteAlias (a0 :: rest) with
      | [] => .indexPanic
      | name :: rest2 =>
        match c.subcmds.lookup name with
        | some action => .selected action rest2
        | none =>
          if c.hasMissingCallback then .missing name rest2
          else .unrecognized c.Name name

/-- A Go `error` value as far as the dispatcher distinguishes them: an
`*UnrecognizedCommand` or anything else. -/
inductive GoError where
  | unrecognizedCommand (message : String)
  | other (message : String)
deriving DecidableEq

/-- `missingCommand.Run` (lines 630–637): delegates to the callback with the
stored name and arguments; an `UnrecognizedCommand` result is replaced by the
default message naming `<superName> <name>`. -/
def missingCommandRun (superName name : String) (args : List String)
    (callback : String → List String → Option GoError) : Option GoError :=
  match callback name args with
  | some (.unrecognizedCommand _) =>
      some (.unrecognizedCommand ("unrecognized command: " ++ superName ++ " " ++ name))
  | r => r

/-- Modelled from the spec: the built-in help command's `Init` (`help.go` is
not under `src/`).  "Invoking the supercommand with no arguments renders
help" and `help <command>` shows help for one command, so `Init` accepts
zero or one argument. -/
def helpCommandInitOk (args : List String) : Bool :=
  args.length ≤ 1

/-! ## Dispatch (`SuperCommand.Run`, lines 488–531) -/

/-- The observable steps `SuperCommand.Run` performs, in order, up to and
including the invocation of the selected subcommand's `Run`. -/
inductive RunEvent where
  | wroteDescription
  | panicked (msg : String)
  | logStarted
  | notifiedRun (name : String)
  | warnedDeprecated (line : String)
  | ranCommand (id : Nat)
deriving DecidableEq

/-- `SuperCommand.Run` (lines 488–515), as the ordered trace of steps up to
and including invoking the subcommand.  The error post-processing of the
subcommand's result (lines 516–530) follows the invocation and is outside
the trace; `Log.Start` is assumed to succeed (on failure Go returns before
any further step). -/
def SuperCommand.RunEvents (c : SuperCommand) : List RunEvent :=
  if c.showDescription then [.wroteDescription]
  else
    match c.action with
    | none => [.panicked "Run: missing subcommand; Init failed or not called"]
    | some act =>
      (if c.hasLog then [RunEvent.logStarted] else []) ++
      (if c.hasNotifyRun then
        [RunEvent.notifiedRun
          (if c.usagePref ≠ "" && c.usagePref ≠ c.Name
            then c.usagePref ++ " " ++ c.Name else c.Name)]
      else []) ++
      (if act.Deprecated.1 then
        [RunEvent.warnedDeprecated
          ("WARNING: \"" ++ act.name ++ "\" is deprecated, please use \""
            ++ act.Deprecated.2 ++ "\"")]
      else []) ++
      [RunEvent.ranCommand act.command.id]

/-! ## Fuzzy matching (`FindClosestSubCommand`, lines 539–577) -/

/-- The comparator passed to `sort.Slice`: ascending distance, ties broken
by name. -/
def closerMatch (p q : String × Nat) : Bool :=
  if p.2 < q.2 then true
  else if q.2 < p.2 then false
  else decide (p.1 < q.1)

/-- `SuperCommand.FindClosestSubCommand` (lines 539–577).  Go builds the
match list from map iteration (unspecified order), sorts it by `closerMatch`
and takes the first element; since the comparator is a strict total order on
the distinct registered names, that first element is the unique minimum,
computed here by a fold.  The final guard is the Go condition
`ok && matchedName != "" && matchedValue < len(matchedName)+1`. -/
def SuperCommand.FindClosestSubCommand (c : SuperCommand) (name : String) :
    Option (String × Cmd) :=
  match c.subcmds.map (fun nr => (nr.1, levenshteinDistanceS name nr.1)) with
  | [] => none
  | m :: ms =>
    let best := ms.foldl (fun acc p => if closerMatch p acc then p else acc) m
    match c.subcmds.lookup best.1 with
    | some ref =>
      if best.1 ≠ "" && best.2 < best.1.length + 1 then some (best.1, ref.command)
      else none
    | none => none

/-! ## The user alias file parser (`ParseAliasFile`)

The Go `strings` helpers the parser calls are modelled character-by-character
over `List Char` (the characters in alias files are ASCII; of Go's
`unicode.IsSpace` set the ASCII part is modelled). -/

/-- The ASCII whitespace characters of Go's `unicode.IsSpace`. -/
def goIsSpace (c : Char) : Bool :=
  c = ' ' || c = '\t' || c = '\n' || c = '\r' || c = '\u000B' || c = '\u000C'

/-- `strings.TrimSpace`: drop whitespace from both ends. -/
def goTrim (s : List Char) : List Char :=
  ((s.dropWhile goIsSpace).reverse.dropWhile goIsSpace).reverse

/-- `strings.SplitN(line, "=", 2)`: `none` when the line has no `=`
(one piece), otherwise the pieces before and after the first `=`. -/
def splitOnEq : List Char → Option (List Char × List Char)
  | [] => none
  | c :: cs =>
    if c = '=' then some ([], cs)
    else
      match splitOnEq cs with
      | none => none
      | some (l, r) => some (c :: l, r)

/-- `strings.HasPrefix(line, "#")`. -/
def startsWithHash : List Char → Bool
  | '#' :: _ => true
  | _ => false

/-- `strings.Fields`: the maximal runs of non-whitespace characters.  `acc`
holds the (reversed) run being read. -/
def goFieldsAux : List Char → List Char → List (List Char)
  | [], acc => if acc = [] then [] else [acc.reverse]
  | c :: cs, acc =>
    if goIsSpace c then
      if acc = [] then goFieldsAux cs []
      else acc.reverse :: goFieldsAux cs []
    else goFieldsAux cs (c :: acc)

/-- `strings.Fields`. -/
def goFields (s : List Char) : List (List Char) :=
  goFieldsAux s []

/-- `strings.Split(content, "\n")`: the newline-separated pieces (empty
pieces included). -/
def splitLinesAux : List Char → List Char → List (List Char)
  | [], acc => [acc.reverse]
  | c :: cs, acc =>
    if c = '\n' then acc.reverse :: splitLinesAux cs []
    else splitLinesAux cs (c :: acc)

/-- `strings.Split(content, "\n")`. -/
def splitLines (s : List Char) : List (List Char) :=
  splitLinesAux s []

/-- Go map assignment `result[name] = value` on the association-list
model: overwrite an existing binding, otherwise append a new one. -/
def mapSet (m : List (String × List String)) (k : String) (v : List String) :
    List (String × List String) :=
  if (m.lookup k).isSome then m.map (fun p => if p.1 = k then (k, v) else p)
  else m ++ [(k, v)]

/-- The line loop of `ParseAliasFile`: trim; skip blanks and `#` comments;
split at the first `=` (no `=` means skip); trim both parts; skip empty
names and empty values; otherwise record the whitespace-tokenized value. -/
def parseAliasLines : List (List Char) → List (String × List String) → List (String × List String)
  | [], result => result
  | line :: rest, result =>
    let l := goTrim line
    if l = [] || startsWithHash l then parseAliasLines rest result
    else
      match splitOnEq l with
      | none => parseAliasLines rest result
      | some (p0, p1) =>
        let name := goTrim p0
        let value := goTrim p1
        if name = [] then parseAliasLines rest result
        else if value = [] then parseAliasLines rest result
        else
          parseAliasLines rest
            (mapSet result (String.mk name) ((goFields value).map String.mk))

/-- `ParseAliasFile`: an empty filename or an unreadable file yields an empty
table, otherwise the file's lines are parsed.  Reading the file system is
modelled by the function `readFile` (`none` = read error). -/
def ParseAliasFile (aliasFilename : String) (readFile : String → Option String) :
    List (String × List String) :=
  if aliasFilename = "" then []
  else
    match readFile aliasFilename with
    | none => []
    | some content => parseAliasLines (splitLines content.data) []

/-! ## Concrete instances used in example-level statements -/

/-- The lexicographic "no worse match" order on `(name, distance)` pairs:
smaller distance first, ties broken by name.  `closerMatch p q = false` iff
`leM q p`. -/
def leM (p q : String × Nat) : Prop :=
  p.2 < q.2 ∨ (p.2 = q.2 ∧ p.1 ≤ q.1)

/-- A bare super-command with an empty registry. -/
def wBase : SuperCommand :=
  { Name := "app", subcmds := [], userAliases := [], noAlias := false,
    hasMissingCallback := false, showDescription := false, usagePref := "",
    hasLog := false, hasNotifyRun := false, action := none }

/-- A sample command named `foo` with declared alias `f`. -/
def wCmd : Cmd := .mk 7 "foo" ["f"] false []

def wFooRef : commandReference :=
  { name := "foo", command := wCmd, aliasFor := "", check := none }

def wFRef : commandReference :=
  { name := "f", command := wCmd, aliasFor := "foo", check := none }

/-- `wBase` after `Register wCmd`. -/
def wReg : SuperCommand :=
  { wBase with subcmds := [("foo", wFooRef), ("f", wFRef)] }

/-- `wReg` after `RegisterAlias "bar" "foo" none`. -/
def wReg2 : SuperCommand :=
  { wBase with subcmds :=
      [("foo", wFooRef), ("f", wFRef),
       ("bar", { name := "bar", command := wCmd, aliasFor := "foo", check := none })] }

/-- A deprecation check that is deprecated (replacement `new-cmd`) but not
obsolete. -/
def wDepCheck : DeprecationCheck := ⟨true, "new-cmd", false⟩

def wDepRef : commandReference :=
  { name := "old-cmd", command := wCmd, aliasFor := "", check := some wDepCheck }

/-- The alias file content of the spec's example. -/
def exampleAliasContent : String :=
  "def = defenestrate\nbe-firm = defenestrate --option firmly"

/-- A one-file file system holding the example alias file. -/
def exampleFS : String → Option String :=
  fun fn => if fn = "aliases" then some exampleAliasContent else none

def defenestrateCmd : Cmd := .mk 2 "defenestrate" [] false []

def defenestrateRef : commandReference :=
  { name := "defenestrate", command := defenestrateCmd, aliasFor := "", check := none }

/-- A super-command with `defenestrate` registered and the example alias
file loaded. -/
def exampleSuper : SuperCommand :=
  { Name := "test",
    subcmds := [("help", { name := "", command := helpCmd, aliasFor := "", check := none }),
                ("defenestrate", defenestrateRef)],
    userAliases := ParseAliasFile "aliases" exampleFS,
    noAlias := false, hasMissingCallback := false, showDescription := false,
    usagePref := "", hasLog := false, hasNotifyRun := false, action := none }

def listCmd : Cmd := .mk 3 "list" [] false []

def statusCmd : Cmd := .mk 4 "status" [] false []

/-- A registry holding exactly the names `help`, `list`, `status`. -/
def fuzzySuper : SuperCommand :=
  { Name := "fz",
    subcmds := [("help", { name := "", command := helpCmd, aliasFor := "", check := none }),
                ("list", { name := "list", command := listCmd, aliasFor := "", check := none }),
                ("status", { name := "status", command := statusCmd, aliasFor := "", check := none })],
    userAliases := [], noAlias := false, hasMissingCallback := false,
    showDescription := false, usagePref := "", hasLog := false,
    hasNotifyRun := false, action := none }

/-- A registry whose only registered name is the empty string. -/
def emptyNameSuper : SuperCommand :=
  { fuzzySuper with
    Name := "x",
    subcmds := [("", { name := "", command := helpCmd, aliasFor := "", check := none })] }

/-- `exampleSuper` with a missing-command callback configured. -/
def wMissingSuper : SuperCommand :=
  { exampleSuper with hasMissingCallback := true }

/-- `exampleSuper` invoked with `--no-alias`. -/
def noAliasExampleSuper : SuperCommand :=
  { exampleSuper with noAlias := true }

/-- A super-command about to run a deprecated command. -/
def wRunSuper : SuperCommand :=
  { wReg with action := some wDepRef, hasLog := true, hasNotifyRun := true }

/-- A super-command about to run a command with no deprecation check. -/
def wRunPlain : SuperCommand :=
  { wReg with action := some wFooRef }

/-- A freshly initialized super-command (no version configured). -/
def wInitSuper : SuperCommand :=
  { wBase with subcmds := initSubcmds "" }

/-! ### Correctness of the dynamic program -/

theorem levSpec_nil_right (u : List Char) : levSpec u [] = u.length := by
  cases u <;> simp [levSpec]

/-- The classic recurrence also holds at the *last* characters of both lists:
this is the recurrence the Go dynamic program steps by (it extends prefixes on
the right), so it is the key fact connecting the two. -/
theorem levSpec_append (x y : Char) (u v : List Char) :
    levSpec (u ++ [x]) (v ++ [y]) =
      min (levSpec u (v ++ [y]) + 1)
        (min (levSpec (u ++ [x]) v + 1)
          (levSpec u v + (if x = y then 0 else 1))) := by
  induction u generalizing v with
  | nil =>
    induction v with
    | nil => simp [levSpec]
    | cons b v ihv =>
      simp only [List.nil_append, List.cons_append, levSpec, List.length_append,
        List.length_cons, List.length_nil] at ihv ⊢
      split_ifs at ihv ⊢ <;> omega
  | cons a u ihu =>
    induction v with
    | nil =>
      have h1 := ihu []
      simp only [List.nil_append, List.cons_append, levSpec, levSpec_nil_right,
        List.length_append, List.length_cons, List.length_nil] at h1 ⊢
      split_ifs at h1 ⊢ <;> omega
    | cons b v ihv =>
      have h1 := ihu (b :: v)
      have h3 := ihu v
      simp only [List.nil_append, List.cons_append, levSpec] at h1 h3 ihv ⊢
      rw [h1, ihv, h3]
      simp only [← min_add_add_right]
      apply le_antisymm <;> simp only [le_min_iff, min_le_iff] <;> omega

/-- `levSpec` agrees with Mathlib's `levenshtein` under the default
(unit-cost) cost structure — the established formalisation of the classic
Levenshtein edit distance. -/
theorem levSpec_eq_levenshtein (u v : List Char) :
    levSpec u v = levenshtein Levenshtein.defaultCost u v := by
  induction u generalizing v with
  | nil =>
    induction v with
    | nil => simp [levSpec]
    | cons y ys ihy =>
      simp only [levSpec, levenshtein_nil_cons, List.length_cons,
        Levenshtein.defaultCost_insert] at ihy ⊢
      omega
  | cons x xs ihx =>
    induction v with
    | nil =>
      have h := ihx []
      simp only [levSpec, levenshtein_cons_nil, levSpec_nil_right,
        List.length_cons, Levenshtein.defaultCost_delete] at h ⊢
      omega
    | cons y ys ihy =>
      have h1 := ihx (y :: ys)
      have h2 := ihx ys
      rw [levenshtein_cons_cons]
      simp only [levSpec, Levenshtein.defaultCost_delete, Levenshtein.defaultCost_insert,
        Levenshtein.defaultCost_substitute] at h1 h2 ihy ⊢
      rw [h1, h2, ihy]
      split_ifs <;> omega

theorem levSpec_self (s : List Char) : levSpec s s = 0 := by
  induction s with
  | nil => simp [levSpec]
  | cons x xs ih => simp [levSpec, ih]

theorem levSpec_comm (u v : List Char) : levSpec u v = levSpec v u := by
  induction u generalizing v with
  | nil => cases v <;> simp [levSpec]
  | cons x xs ihx =>
    induction v with
    | nil => simp [levSpec, levSpec_nil_right]
    | cons y ys ihy =>
      simp only [levSpec]
      rw [ihx (y :: ys), ihx ys, ihy]
      have hc : (if x = y then 0 else 1) = (if y = x then (0 : Nat) else 1) := by
        rcases eq_or_ne x y with h | h
        · simp [h]
        · simp [h, h.symm]
      rw [hc]
      apply le_antisymm <;> simp only [le_min_iff, min_le_iff] <;> omega

/-- The inner loop computes the tail of the next row from the tail of the
previous row: the crucial invariant of the dynamic program. -/
theorem levRowAux_spec (y : Char) (btOld : List Char) :
    ∀ (rest pre : List Char),
      levRowAux y rest (rowTail pre rest btOld)
          (levSpec pre btOld) (levSpec pre (btOld ++ [y]))
        = rowTail pre rest (btOld ++ [y]) := by
  intro rest
  induction rest with
  | nil => intro pre; rfl
  | cons c cs ih =>
    intro pre
    simp only [rowTail, levRowAux]
    have hnj : min (levSpec (pre ++ [c]) btOld + 1)
        (min (levSpec pre (btOld ++ [y]) + 1)
          (levSpec pre btOld + if c = y then 0 else 1))
        = levSpec (pre ++ [c]) (btOld ++ [y]) := by
      have h := levSpec_append c y pre btOld
      apply le_antisymm <;> rw [h] <;> simp only [le_min_iff, min_le_iff] <;> omega
    rw [hnj, ih (pre ++ [c])]

theorem levSpec_nil_left (v : List Char) : levSpec [] v = v.length := by
  simp [levSpec]

/-- One outer iteration of the Go loop turns the row for `b`-prefix `btOld`
into the row for `btOld ++ [y]`. -/
theorem levRow_spec (y : Char) (a btOld : List Char) :
    levRow y a (rowSpec [] a btOld) (btOld.length + 1) = rowSpec [] a (btOld ++ [y]) := by
  simp only [levRow, rowSpec, List.tail_cons, Nat.add_sub_cancel]
  have h := levRowAux_spec y btOld a []
  rw [levSpec_nil_left, levSpec_nil_left] at h
  simp only [List.length_append, List.length_cons, List.length_nil] at h
  rw [h, levSpec_nil_left]
  simp

/-- The outer loop maps the row for `btOld` to the row for `btOld ++ brest`. -/
theorem levLoop_spec (a : List Char) :
    ∀ (brest btOld : List Char),
      levLoop a brest (rowSpec [] a btOld) (btOld.length + 1)
        = rowSpec [] a (btOld ++ brest) := by
  intro brest
  induction brest with
  | nil => intro btOld; simp [levLoop]
  | cons y brest ih =>
    intro btOld
    simp only [levLoop]
    rw [levRow_spec]
    have h := ih (btOld ++ [y])
    simp only [List.length_append, List.length_cons, List.length_nil,
      List.append_assoc, List.cons_append, List.nil_append] at h ⊢
    exact h

theorem rowTail_nil_bt (rest : List Char) :
    ∀ (pre : List Char), rowTail pre rest [] = List.range' (pre.length + 1) rest.length := by
  induction rest with
  | nil => intro pre; rfl
  | cons c cs ih =>
    intro pre
    simp only [rowTail, List.length_cons, List.range'_succ, levSpec_nil_right]
    rw [ih (pre ++ [c])]
    simp

/-- The initial Go array `d = [0, 1, …, la]` is the row for the empty
`b`-prefix. -/
theorem rowSpec_init (a : List Char) :
    rowSpec [] a [] = List.range (a.length + 1) := by
  rw [List.range_eq_range', List.range'_succ]
  simp [rowSpec, rowTail_nil_bt, levSpec_nil_left]

/-- The last entry of a row is the distance for the whole (prefix ++ rest). -/
theorem rowSpec_getLastD (rest : List Char) :
    ∀ (pre bt : List Char), (rowSpec pre rest bt).getLastD 0 = levSpec (pre ++ rest) bt := by
  induction rest with
  | nil => intro pre bt; simp [rowSpec, rowTail]
  | cons c cs ih =>
    intro pre bt
    have h := ih (pre ++ [c]) bt
    simp only [rowSpec, rowTail, List.getLastD_cons] at h ⊢
    rw [h]
    simp

/-- **Correctness of the Go dynamic program**: `levenshteinDistance` computes
the classic Levenshtein recurrence `levSpec`. -/
theorem levenshteinDistance_eq_levSpec (a b : List Char) :
    levenshteinDistance a b = levSpec a b := by
  have h := levLoop_spec a b []
  simp only [List.length_nil, List.nil_append, Nat.zero_add] at h
  unfold levenshteinDistance
  rw [← rowSpec_init, h, rowSpec_getLastD]
  simp

/-- C3: `levenshteinDistance(a, b)` equals the classic Levenshtein edit
distance — stated via the classic recurrence `levSpec`, which provably
coincides with Mathlib's `levenshtein` under the unit cost structure.  In
particular `levenshteinDistance "kitten" "sitting" = 3`, the distance from
every string to itself is `0`, and the distance is symmetric. -/
theorem levenshteinDistance_classic :
    (∀ a b : List Char, levenshteinDistance a b = levSpec a b)
    ∧ (∀ a b : List Char,
        levenshteinDistance a b = levenshtein Levenshtein.defaultCost a b)
    ∧ levenshteinDistanceS "kitten" "sitting" = 3
    ∧ (∀ s : String, levenshteinDistanceS s s = 0)
    ∧ (∀ a b : String, levenshteinDistanceS a b = levenshteinDistanceS b a) := by
  refine ⟨levenshteinDistance_eq_levSpec, ?_, ?_, ?_, ?_⟩
  · intro a b
    rw [levenshteinDistance_eq_levSpec, levSpec_eq_levenshtein]
  · rfl
  · intro s
    rw [levenshteinDistanceS, levenshteinDistance_eq_levSpec, levSpec_self]
  · intro a b
    rw [levenshteinDistanceS, levenshteinDistanceS,
      levenshteinDistance_eq_levSpec, levenshteinDistance_eq_levSpec, levSpec_comm]

/-! ### Association-list registry lemmas -/

theorem lookup_append {α β : Type} [BEq α] (l1 l2 : List (α × β)) (k : α) :
    (l1 ++ l2).lookup k = ((l1.lookup k).or (l2.lookup k)) := by
  induction l1 with
  | nil => simp [List.lookup]
  | cons p t ih =>
    cases h : k == p.1 <;> simp [List.lookup, h, ih]

theorem lookup_eq_none_iff {β : Type} (l : List (String × β)) (k : String) :
    l.lookup k = none ↔ k ∉ l.map Prod.fst := by
  induction l with
  | nil => simp [List.lookup]
  | cons p t ih =>
    rcases eq_or_ne k p.1 with h | h
    · simp [List.lookup, h]
    · simp [List.lookup, beq_false_of_ne h, h, ih]

/-- `insert` succeeds exactly on a fresh name, by appending the binding. -/
theorem insert_ok_subcmds (c c' : SuperCommand) (v : commandReference)
    (h : c.insert v = .ok c') :
    c.subcmds.lookup v.name = none
      ∧ c'.subcmds = c.subcmds ++ [(v.name, v)] := by
  unfold SuperCommand.insert at h
  cases hl : c.subcmds.lookup v.name with
  | some r => rw [hl] at h; exact absurd h (by simp)
  | none =>
    rw [hl] at h
    refine ⟨rfl, ?_⟩
    cases h
    rfl

/-- `insert` panics when the name is already registered. -/
theorem insert_error_of_found (c : SuperCommand) (v : commandReference)
    (r : commandReference) (h : c.subcmds.lookup v.name = some r) :
    c.insert v = .error ("command already registered: " ++ v.name) := by
  unfold SuperCommand.insert
  rw [h]

theorem lookup_mem_keys {β : Type} (l : List (String × β)) (k : String)
    (h : k ∈ l.map Prod.fst) : ∃ r, l.lookup k = some r := by
  cases hl : l.lookup k with
  | some r => exact ⟨r, rfl⟩
  | none => exact absurd h ((lookup_eq_none_iff l k).mp hl)

/-- `insert` succeeds on a fresh name. -/
theorem insert_ok_of_fresh (c : SuperCommand) (v : commandReference)
    (h : c.subcmds.lookup v.name = none) :
    c.insert v = .ok { c with subcmds := c.subcmds ++ [(v.name, v)] } := by
  unfold SuperCommand.insert
  rw [h]

/-- A successful `insert` preserves every existing binding. -/
theorem insert_preserves (c c' : SuperCommand) (v : commandReference)
    (h : c.insert v = .ok c') (n : String) (r : commandReference)
    (hn : c.subcmds.lookup n = some r) : c'.subcmds.lookup n = some r := by
  obtain ⟨-, h2⟩ := insert_ok_subcmds c c' v h
  rw [h2, lookup_append, hn]
  rfl

/-- A successful `insert` makes the new name resolve to the new reference. -/
theorem insert_lookup_self (c c' : SuperCommand) (v : commandReference)
    (h : c.insert v = .ok c') : c'.subcmds.lookup v.name = some v := by
  obtain ⟨h1, h2⟩ := insert_ok_subcmds c c' v h
  rw [h2, lookup_append, h1]
  simp [List.lookup]

/-- A successful `insert` preserves the head of the registry. -/
theorem insert_preserves_head (c c' : SuperCommand) (v p l)
    (hc : c.subcmds = p :: l) (h : c.insert v = .ok c') :
    ∃ l', c'.subcmds = p :: l' := by
  obtain ⟨-, h2⟩ := insert_ok_subcmds c c' v h
  exact ⟨l ++ [(v.name, v)], by rw [h2, hc]; rfl⟩

/-- A successful `insert` keeps the registered names free of duplicates. -/
theorem insert_preserves_nodup (c c' : SuperCommand) (v : commandReference)
    (hnd : (c.subcmds.map Prod.fst).Nodup) (h : c.insert v = .ok c') :
    (c'.subcmds.map Prod.fst).Nodup := by
  obtain ⟨h1, h2⟩ := insert_ok_subcmds c c' v h
  rw [h2, List.map_append, List.nodup_append]
  refine ⟨hnd, by simp, ?_⟩
  intro a ha hb
  simp only [List.map_cons, List.map_nil, List.mem_singleton] at hb
  subst hb
  exact (lookup_eq_none_iff _ _).mp h1 ha

theorem insertAll_preserves (vs : List commandReference) :
    ∀ (c c' : SuperCommand), c.insertAll vs = .ok c' →
      ∀ n r, c.subcmds.lookup n = some r → c'.subcmds.lookup n = some r := by
  induction vs with
  | nil =>
    intro c c' h n r hn
    cases h
    exact hn
  | cons v vs ih =>
    intro c c' h n r hn
    unfold SuperCommand.insertAll at h
    cases hi : c.insert v with
    | error e => rw [hi] at h; exact absurd h (by simp)
    | ok c2 =>
      rw [hi] at h
      exact ih c2 c' h n r (insert_preserves c c2 v hi n r hn)

theorem insertAll_lookup_mem (vs : List commandReference) :
    ∀ (c c' : SuperCommand), c.insertAll vs = .ok c' →
      ∀ v ∈ vs, c'.subcmds.lookup v.name = some v := by
  induction vs with
  | nil => intro c c' _ v hv; exact absurd hv (by simp)
  | cons w vs ih =>
    intro c c' h v hv
    unfold SuperCommand.insertAll at h
    cases hi : c.insert w with
    | error e => rw [hi] at h; exact absurd h (by simp)
    | ok c2 =>
      rw [hi] at h
      rcases List.mem_cons.mp hv with rfl | hv2
      · exact insertAll_preserves vs c2 c' h v.name v (insert_lookup_self c c2 v hi)
      · exact ih c2 c' h v hv2

/-- If any reference in the batch carries an already-registered name, the
whole batch panics (the registration never succeeds). -/
theorem insertAll_not_ok_of_mem (vs : List commandReference) :
    ∀ (c : SuperCommand) (v : commandReference) (r : commandReference),
      v ∈ vs → c.subcmds.lookup v.name = some r →
      ∀ c', c.insertAll vs ≠ .ok c' := by
  induction vs with
  | nil => intro c v r hv; exact absurd hv (by simp)
  | cons w vs ih =>
    intro c v r hv hr c' h
    unfold SuperCommand.insertAll at h
    cases hi : c.insert w with
    | error e => rw [hi] at h; exact absurd h (by simp)
    | ok c2 =>
      rw [hi] at h
      rcases List.mem_cons.mp hv with heq | hv2
      · subst heq
        obtain ⟨h1, -⟩ := insert_ok_subcmds c c2 v hi
        rw [h1] at hr
        exact absurd hr (by simp)
      · exact ih c2 v r hv2 (insert_preserves c c2 w hi _ r hr) c' h

theorem insertAll_preserves_nodup (vs : List commandReference) :
    ∀ (c c' : SuperCommand), (c.subcmds.map Prod.fst).Nodup →
      c.insertAll vs = .ok c' → (c'.subcmds.map Prod.fst).Nodup := by
  induction vs with
  | nil => intro c c' hnd h; cases h; exact hnd
  | cons v vs ih =>
    intro c c' hnd h
    unfold SuperCommand.insertAll at h
    cases hi : c.insert v with
    | error e => rw [hi] at h; exact absurd h (by simp)
    | ok c2 =>
      rw [hi] at h
      exact ih c2 c' (insert_preserves_nodup c c2 v hnd hi) h

theorem insertAll_preserves_head (vs : List commandReference) :
    ∀ (c c' : SuperCommand) p l, c.subcmds = p :: l →
      c.insertAll vs = .ok c' → ∃ l', c'.subcmds = p :: l' := by
  induction vs with
  | nil => intro c c' p l hc h; cases h; exact ⟨l, hc⟩
  | cons v vs ih =>
    intro c c' p l hc h
    unfold SuperCommand.insertAll at h
    cases hi : c.insert v with
    | error e => rw [hi] at h; exact absurd h (by simp)
    | ok c2 =>
      rw [hi] at h
      obtain ⟨l2, hc2⟩ := insert_preserves_head c c2 v p l hc hi
      exact ih c2 c' p l2 hc2 h

/-! ### Claim C4: registration and resolution agree -/

/-- C4: after a successful `Register`, resolving the command's primary name
and each of its declared aliases yields the registered handler — and `Init`
on the primary name selects it; after `RegisterAlias x y nil`, resolving `x`
yields the same handler as resolving `y`. -/
theorem register_then_resolve (c c' : SuperCommand) (subcmd : Cmd)
    (h : c.Register subcmd = .ok c') :
    (∃ r, c'.subcmds.lookup subcmd.infoName = some r ∧ r.command = subcmd)
    ∧ (∀ al ∈ subcmd.infoAliases,
        ∃ r, c'.subcmds.lookup al = some r ∧ r.command = subcmd)
    ∧ (c'.showDescription = false → c'.userAliases = [] →
        ∃ r, c'.Init [subcmd.infoName] = .selected r [] ∧ r.command = subcmd)
    ∧ (∀ (d d' : SuperCommand) (x y : String) (ry : commandReference),
        d.RegisterAlias x y none = .ok d' →
        d.subcmds.lookup y = some ry →
        ∃ rx, d'.subcmds.lookup x = some rx ∧ rx.command = ry.command
          ∧ d'.subcmds.lookup y = some ry) := by
  have hmain :
      c'.subcmds.lookup subcmd.infoName
        = some { name := subcmd.infoName, command := subcmd, aliasFor := "", check := none } :=
    insertAll_lookup_mem _ c c' h
      { name := subcmd.infoName, command := subcmd, aliasFor := "", check := none }
      (List.mem_cons_self _ _)
  refine ⟨⟨_, hmain, rfl⟩, ?_, ?_, ?_⟩
  · intro al hal
    exact ⟨{ name := al, command := subcmd, aliasFor := subcmd.infoName, check := none },
      insertAll_lookup_mem _ c c' h
        { name := al, command := subcmd, aliasFor := subcmd.infoName, check := none }
        (List.mem_cons_of_mem _ (List.mem_map.mpr ⟨al, hal, rfl⟩)), rfl⟩
  · intro hdesc hua
    refine ⟨{ name := subcmd.infoName, command := subcmd, aliasFor := "", check := none },
      ?_, rfl⟩
    simp [SuperCommand.Init, SuperCommand.substituteAlias, hdesc, hua, hmain,
      List.lookup]
  · intro d d' x y ry hreg hy
    unfold SuperCommand.RegisterAlias at hreg
    simp only [checkObsolete, Bool.false_eq_true, if_false] at hreg
    rw [hy] at hreg
    exact ⟨_, insert_lookup_self d d' _ hreg, rfl,
      insert_preserves d d' _ hreg y ry hy⟩

/-- Witness for C4 at a concrete registry: `foo` (with alias `f`) is
registered into the empty registry, then `bar` is aliased to `foo`. -/
theorem register_then_resolve_witness :
    (∃ r, wReg.subcmds.lookup wCmd.infoName = some r ∧ r.command = wCmd)
    ∧ (∃ r, wReg.subcmds.lookup "f" = some r ∧ r.command = wCmd)
    ∧ (∃ r, wReg.Init [wCmd.infoName] = .selected r [] ∧ r.command = wCmd)
    ∧ (∃ rx, wReg2.subcmds.lookup "bar" = some rx ∧ rx.command = wFooRef.command
        ∧ wReg2.subcmds.lookup "foo" = some wFooRef) := by
  have h := register_then_resolve wBase wReg wCmd rfl
  exact ⟨h.1, h.2.1 "f" (by simp [wCmd, Cmd.infoAliases]), h.2.2.1 rfl rfl,
    h.2.2.2 wReg wReg2 "bar" "foo" wFooRef rfl rfl⟩

/-! ### Claim C5: duplicate names always panic; names stay unique -/

/-- C5: inserting a name that already exists panics, whichever of the four
registration operations attempts it and whichever inserted the earlier
entry; successful registration keeps the set of registered names duplicate
free, and the initial registry is duplicate free. -/
theorem duplicate_name_panics :
    (∀ (c : SuperCommand) (v r : commandReference),
      c.subcmds.lookup v.name = some r →
      c.insert v = .error ("command already registered: " ++ v.name))
    ∧ (∀ (c : SuperCommand) (subcmd : Cmd) (r : commandReference),
        c.subcmds.lookup subcmd.infoName = some r →
        ∀ c', c.Register subcmd ≠ .ok c')
    ∧ (∀ (c : SuperCommand) (subcmd : Cmd) (check : Option DeprecationCheck)
        (r : commandReference),
        checkObsolete check = false →
        c.subcmds.lookup subcmd.infoName = some r →
        ∀ c', c.RegisterDeprecated (some subcmd) check ≠ .ok c')
    ∧ (∀ (c : SuperCommand) (name forName : String) (check : Option DeprecationCheck)
        (rf r : commandReference),
        checkObsolete check = false →
        c.subcmds.lookup forName = some rf →
        c.subcmds.lookup name = some r →
        c.RegisterAlias name forName check
          = .error ("command already registered: " ++ name))
    ∧ (∀ (c : SuperCommand) (name sup forName : String) (check : Option DeprecationCheck)
        (rs : commandReference) (inner : Cmd) (r : commandReference),
        checkObsolete check = false →
        c.subcmds.lookup sup = some rs →
        rs.command.IsSuperCommand = true →
        rs.command.subcmds.lookup forName = some inner →
        c.subcmds.lookup name = some r →
        c.RegisterSuperAlias name sup forName check
          = .error ("command already registered: " ++ name))
    ∧ (∀ (c c' : SuperCommand) (v : commandReference),
        (c.subcmds.map Prod.fst).Nodup → c.insert v = .ok c' →
        (c'.subcmds.map Prod.fst).Nodup)
    ∧ (∀ (c c' : SuperCommand) (subcmd : Cmd),
        (c.subcmds.map Prod.fst).Nodup → c.Register subcmd = .ok c' →
        (c'.subcmds.map Prod.fst).Nodup)
    ∧ (∀ version, ((initSubcmds version).map Prod.fst).Nodup) := by
  refine ⟨insert_error_of_found, ?_, ?_, ?_, ?_, insert_preserves_nodup, ?_, ?_⟩
  · intro c subcmd r hr c'
    exact insertAll_not_ok_of_mem _ c
      { name := subcmd.infoName, command := subcmd, aliasFor := "", check := none } r
      (List.mem_cons_self _ _) hr c'
  · intro c subcmd check r hob hr c'
    unfold SuperCommand.RegisterDeprecated
    rw [hob]
    simp only [Bool.false_eq_true, if_false]
    exact insertAll_not_ok_of_mem _ c
      { name := subcmd.infoName, command := subcmd, aliasFor := "", check := check } r
      (List.mem_cons_self _ _) hr c'
  · intro c name forName check rf r hob hf hn
    unfold SuperCommand.RegisterAlias
    rw [hob, hf]
    simp only [Bool.false_eq_true, if_false]
    exact insert_error_of_found c _ r hn
  · intro c name sup forName check rs inner r hob hs hsup hinner hn
    unfold SuperCommand.RegisterSuperAlias
    rw [hob, hs]
    dsimp only
    rw [hsup, hinner]
    simp only [Bool.not_true, Bool.false_eq_true, if_false]
    exact insert_error_of_found c _ r hn
  · intro c c' subcmd hnd h
    exact insertAll_preserves_nodup _ c c' hnd h
  · intro version
    unfold initSubcmds
    rcases eq_or_ne version "" with h | h <;> simp [h]

/-- Witness for C5: re-registering `foo` (already present in `wReg`) panics
through every operation, and the concrete registries are duplicate free. -/
theorem duplicate_name_panics_witness :
    (wReg.insert wFooRef = .error ("command already registered: " ++ wFooRef.name))
    ∧ (∀ c', wReg.Register wCmd ≠ .ok c')
    ∧ (∀ c', wReg.RegisterDeprecated (some wCmd) none ≠ .ok c')
    ∧ (wReg.RegisterAlias "foo" "f" none
        = .error ("command already registered: " ++ "foo"))
    ∧ ((initSubcmds "1.0").map Prod.fst).Nodup := by
  have h := duplicate_name_panics
  exact ⟨h.1 wReg wFooRef wFooRef rfl,
    h.2.1 wReg wCmd wFooRef rfl,
    h.2.2.1 wReg wCmd none wFooRef rfl rfl,
    h.2.2.2.1 wReg "foo" "f" none wFRef wFooRef rfl rfl rfl,
    h.2.2.2.2.2.2.2 "1.0"⟩

/-! ### Claim C6: `RegisterAlias` semantics -/

/-- C6: `RegisterAlias` panics when the target is unknown (and the check not
obsolete); an obsolete check silently skips the insertion, leaving the
registry unchanged and the alias unresolvable; otherwise the new name maps to
the same handler as the target. -/
theorem registerAlias_spec (c : SuperCommand) (name forName : String)
    (check : Option DeprecationCheck) :
    (checkObsolete check = false → c.subcmds.lookup forName = none →
      c.RegisterAlias name forName check
        = .error ("\"" ++ forName ++ "\" not found when registering alias"))
    ∧ (checkObsolete check = true →
        c.RegisterAlias name forName check = .ok c)
    ∧ (checkObsolete check = true → c.subcmds.lookup name = none →
        ∀ c', c.RegisterAlias name forName check = .ok c' →
          c'.subcmds.lookup name = none)
    ∧ (∀ rf, checkObsolete check = false →
        c.subcmds.lookup forName = some rf →
        c.subcmds.lookup name = none →
        ∃ c', c.RegisterAlias name forName check = .ok c'
          ∧ c'.subcmds.lookup name
              = some { name := name, command := rf.command,
                       aliasFor := forName, check := check }
          ∧ c'.subcmds.lookup forName = some rf) := by
  refine ⟨?_, ?_, ?_, ?_⟩
  · intro hob hf
    unfold SuperCommand.RegisterAlias
    rw [hob, hf]
    simp
  · intro hob
    unfold SuperCommand.RegisterAlias
    rw [hob]
    simp
  · intro hob hn c' hok
    unfold SuperCommand.RegisterAlias at hok
    rw [hob] at hok
    simp only [if_true] at hok
    cases hok
    exact hn
  · intro rf hob hf hn
    unfold SuperCommand.RegisterAlias
    rw [hob, hf]
    simp only [Bool.false_eq_true, if_false]
    have hins := insert_ok_of_fresh c
      { name := name, command := rf.command, aliasFor := forName, check := check } hn
    exact ⟨_, hins, insert_lookup_self c _ _ hins,
      insert_preserves c _ _ hins forName rf hf⟩

/-- Witness for C6 at concrete registries: obsolete check skips silently,
unknown target panics, and a live alias shares the target's handler. -/
theorem registerAlias_spec_witness :
    (wReg.RegisterAlias "bar" "nope" none
      = .error ("\"" ++ "nope" ++ "\" not found when registering alias"))
    ∧ (wReg.RegisterAlias "bar" "foo" (some ⟨false, "", true⟩) = .ok wReg)
    ∧ (∀ c', wReg.RegisterAlias "bar" "foo" (some ⟨false, "", true⟩) = .ok c' →
        c'.subcmds.lookup "bar" = none)
    ∧ (∃ c', wReg.RegisterAlias "bar" "foo" none = .ok c'
        ∧ c'.subcmds.lookup "bar"
            = some { name := "bar", command := wFooRef.command,
                     aliasFor := "foo", check := none }
        ∧ c'.subcmds.lookup "foo" = some wFooRef) := by
  have h := registerAlias_spec wReg "bar" "foo" none
  have hob := registerAlias_spec wReg "bar" "foo" (some ⟨false, "", true⟩)
  exact ⟨(registerAlias_spec wReg "bar" "nope" none).1 rfl rfl,
    hob.2.1 rfl, hob.2.2.1 rfl rfl,
    h.2.2.2 wFooRef rfl rfl rfl⟩

/-! ### Claim C1: the four outcomes of `Init` -/

/-- C1: on a non-empty argument list (written `a0 :: rest`, with
`name :: args2` the vector after user-alias substitution), `Init` resolves to
exactly one of: (a) a registry hit on `name` selecting that reference;
(b) is the substitution clause — when `a0` hit a user alias the substituted
vector is the alias tokens followed by `rest`, and `name` is its first token;
(c) a miss with no missing-callback, returning the unrecognized-command
error; (d) a miss with a callback, where `Init` stores the raw name and
remaining arguments, and `missingCommandRun` delegates to the callback with
exactly those.  The outcome forms are pairwise distinct. -/
theorem Init_outcomes (c : SuperCommand) (a0 name : String)
    (rest args2 : List String)
    (hdesc : c.showDescription = false)
    (hsub : c.substituteAlias (a0 :: rest) = name :: args2) :
    ((∃ toks, c.userAliases.lookup a0 = some toks ∧ c.noAlias = false ∧
        name :: args2 = toks ++ rest)
      ∨ name :: args2 = a0 :: rest)
    ∧ (∀ r, c.subcmds.lookup name = some r →
        c.Init (a0 :: rest) = .selected r args2)
    ∧ (c.subcmds.lookup name = none → c.hasMissingCallback = false →
        c.Init (a0 :: rest) = .unrecognized c.Name name)
    ∧ (c.subcmds.lookup name = none → c.hasMissingCallback = true →
        c.Init (a0 :: rest) = .missing name args2)
    ∧ (∀ cb : String → List String → Option GoError,
        (∀ m, cb name args2 ≠ some (.unrecognizedCommand m)) →
        missingCommandRun c.Name name args2 cb = cb name args2)
    ∧ (∀ (cb : String → List String → Option GoError) (m : String),
        cb name args2 = some (.unrecognizedCommand m) →
        missingCommandRun c.Name name args2 cb
          = some (.unrecognizedCommand
              ("unrecognized command: " ++ c.Name ++ " " ++ name)))
    ∧ (∀ (r : commandReference) (rs : List String) (sn n mn : String) (ms : List String),
        InitOutcome.selected r rs ≠ .unrecognized sn n
        ∧ InitOutcome.selected r rs ≠ .missing mn ms
        ∧ InitOutcome.unrecognized sn n ≠ .missing mn ms) := by
  have hInit : ∀ out,
      (match c.subcmds.lookup name with
        | some action => InitOutcome.selected action args2
        | none =>
          if c.hasMissingCallback then InitOutcome.missing name args2
          else InitOutcome.unrecognized c.Name name) = out →
      c.Init (a0 :: rest) = out := by
    intro out hout
    rw [← hout]
    simp only [SuperCommand.Init, hdesc, Bool.false_eq_true, if_false, hsub]
  refine ⟨?_, ?_, ?_, ?_, ?_, ?_, ?_⟩
  · cases hl : c.userAliases.lookup a0 with
    | none =>
      simp only [SuperCommand.substituteAlias, hl] at hsub
      exact Or.inr hsub.symm
    | some toks =>
      cases hna : c.noAlias with
      | false =>
        simp only [SuperCommand.substituteAlias, hl, hna, Bool.not_false, if_true] at hsub
        exact Or.inl ⟨toks, rfl, rfl, hsub.symm⟩
      | true =>
        simp only [SuperCommand.substituteAlias, hl, hna, Bool.not_true,
          Bool.false_eq_true, if_false] at hsub
        exact Or.inr hsub.symm
  · intro r hr
    exact hInit _ (by rw [hr])
  · intro hn hcb
    exact hInit _ (by rw [hn]; simp [hcb])
  · intro hn hcb
    exact hInit _ (by rw [hn]; simp [hcb])
  · intro cb hne
    unfold missingCommandRun
    cases hres : cb name args2 with
    | none => rfl
    | some e =>
      cases e with
      | unrecognizedCommand m => exact absurd hres (hne m)
      | other m => rfl
  · intro cb m hres
    unfold missingCommandRun
    rw [hres]
  · intro r rs sn n mn ms
    exact ⟨by simp, by simp, by simp⟩

/-- Witness for C1 on `exampleSuper` (registry `help`/`defenestrate`, alias
file from the spec's example): a registry hit after substitution, an
unrecognized miss, a delegated miss, and the callback delegation. -/
theorem Init_outcomes_witness :
    (exampleSuper.Init ["be-firm", "extra"]
      = .selected defenestrateRef ["--option", "firmly", "extra"])
    ∧ (exampleSuper.Init ["nope"] = .unrecognized "test" "nope")
    ∧ (wMissingSuper.Init ["nope", "x"] = .missing "nope" ["x"])
    ∧ (missingCommandRun "test" "nope" ["x"] (fun _ _ => none) = none)
    ∧ (missingCommandRun "test" "nope" ["x"]
        (fun _ _ => some (.unrecognizedCommand "inner"))
        = some (.unrecognizedCommand "unrecognized command: test nope")) := by
  have h1 := Init_outcomes exampleSuper "be-firm" "defenestrate"
    ["extra"] ["--option", "firmly", "extra"] rfl rfl
  have h2 := Init_outcomes exampleSuper "nope" "nope" [] [] rfl rfl
  have h3 := Init_outcomes wMissingSuper "nope" "nope" ["x"] ["x"] rfl rfl
  exact ⟨h1.2.1 defenestrateRef rfl, h2.2.2.1 rfl rfl, h3.2.2.2.1 rfl rfl,
    h3.2.2.2.2.1 (fun _ _ => none) (fun m => by simp),
    h3.2.2.2.2.2.1 (fun _ _ => some (.unrecognizedCommand "inner")) "inner" rfl⟩

/-! ### Claim C7: user-alias substitution and `--no-alias` -/

/-- C7: when the first argument hits a user alias and `--no-alias` is not
set, the argument vector becomes the alias's tokens followed by the remaining
arguments; with `--no-alias` set no substitution happens.  On the spec's
example alias file, `be-firm extra` dispatches to `defenestrate` with
arguments `--option firmly extra`, and with `--no-alias`, `def` fails
resolution as an unrecognized command. -/
theorem userAlias_substitution (c : SuperCommand) (a0 : String)
    (toks rest : List String) :
    (c.userAliases.lookup a0 = some toks → c.noAlias = false →
      c.substituteAlias (a0 :: rest) = toks ++ rest)
    ∧ (c.noAlias = true → c.substituteAlias (a0 :: rest) = a0 :: rest)
    ∧ (ParseAliasFile "aliases" exampleFS
        = [("def", ["defenestrate"]),
           ("be-firm", ["defenestrate", "--option", "firmly"])])
    ∧ (exampleSuper.Init ["be-firm", "extra"]
        = .selected defenestrateRef ["--option", "firmly", "extra"])
    ∧ (noAliasExampleSuper.Init ["def"] = .unrecognized "test" "def") := by
  refine ⟨?_, ?_, rfl, rfl, rfl⟩
  · intro hl hna
    simp [SuperCommand.substituteAlias, hl, hna]
  · intro hna
    cases hl : c.userAliases.lookup a0 with
    | none => simp [SuperCommand.substituteAlias, hl]
    | some toks2 => simp [SuperCommand.substituteAlias, hl, hna]

/-- Witness for C7 on the example alias table. -/
theorem userAlias_substitution_witness :
    (exampleSuper.substituteAlias ["be-firm", "extra"]
      = ["defenestrate", "--option", "firmly"] ++ ["extra"])
    ∧ (noAliasExampleSuper.substituteAlias ["def"] = ["def"]) := by
  have h := userAlias_substitution exampleSuper "be-firm"
    ["defenestrate", "--option", "firmly"] ["extra"]
  have h2 := userAlias_substitution noAliasExampleSuper "def" [] []
  exact ⟨h.1 rfl rfl, h2.2.1 rfl⟩

/-! ### Claim C10: empty argument lists select the built-in help -/

/-- C10: an initialized registry has `help` as its first entry and every
registration operation preserves that entry, `Init []` selects it (never an
unrecognized-command error) and delegates to the help command's `Init`, which
accepts an empty argument list. -/
theorem init_empty_selects_help (c : SuperCommand) (r : commandReference)
    (tail : List (String × commandReference))
    (hdesc : c.showDescription = false)
    (hsub : c.subcmds = ("help", r) :: tail) :
    c.Init [] = .selected r []
    ∧ (∀ sn n, c.Init [] ≠ .unrecognized sn n)
    ∧ helpCommandInitOk [] = true
    ∧ (∀ version, (initSubcmds version).head?
        = some ("help", { name := "", command := helpCmd, aliasFor := "", check := none }))
    ∧ (∀ (d d' : SuperCommand) (v : commandReference) (p : String × commandReference)
        (l : List (String × commandReference)), d.subcmds = p :: l →
        d.insert v = .ok d' → ∃ l', d'.subcmds = p :: l')
    ∧ (∀ (d d' : SuperCommand) (subcmd : Cmd) (p : String × commandReference)
        (l : List (String × commandReference)), d.subcmds = p :: l →
        d.Register subcmd = .ok d' → ∃ l', d'.subcmds = p :: l') := by
  have hinit : c.Init [] = .selected r [] := by
    simp [SuperCommand.Init, hdesc, hsub, List.lookup]
  refine ⟨hinit, ?_, rfl, ?_, insert_preserves_head, ?_⟩
  · intro sn n
    rw [hinit]
    simp
  · intro version
    unfold initSubcmds
    rcases eq_or_ne version "" with h | h <;> simp [h]
  · intro d d' subcmd p l hc h
    exact insertAll_preserves_head _ d d' p l hc h

/-- Witness for C10 on a freshly initialized registry. -/
theorem init_empty_selects_help_witness :
    wInitSuper.Init []
      = .selected { name := "", command := helpCmd, aliasFor := "", check := none } []
    ∧ (∀ sn n, wInitSuper.Init [] ≠ .unrecognized sn n) := by
  have h := init_empty_selects_help wInitSuper
    { name := "", command := helpCmd, aliasFor := "", check := none } [] rfl rfl
  exact ⟨h.1, h.2.1⟩

/-! ### Claim C8: the alias file parser is total and line-lenient -/

/-- C8: `ParseAliasFile` always returns a table: empty filename or unreadable
file give the empty table; blank lines, `#`-comment lines, lines without `=`,
and lines with an empty (trimmed) name or value are skipped without failing;
every other line binds the trimmed prefix before the first `=` to the
whitespace-tokenized trimmed suffix. -/
theorem parseAliasFile_spec :
    (∀ f, ParseAliasFile "" f = [])
    ∧ (∀ fn f, f fn = none → ParseAliasFile fn f = [])
    ∧ (∀ fn f content, fn ≠ "" → f fn = some content →
        ParseAliasFile fn f = parseAliasLines (splitLines content.data) [])
    ∧ (∀ line rest acc, goTrim line = [] →
        parseAliasLines (line :: rest) acc = parseAliasLines rest acc)
    ∧ (∀ line rest acc, startsWithHash (goTrim line) = true →
        parseAliasLines (line :: rest) acc = parseAliasLines rest acc)
    ∧ (∀ line rest acc, splitOnEq (goTrim line) = none →
        parseAliasLines (line :: rest) acc = parseAliasLines rest acc)
    ∧ (∀ line rest acc p0 p1, splitOnEq (goTrim line) = some (p0, p1) →
        goTrim p0 = [] →
        parseAliasLines (line :: rest) acc = parseAliasLines rest acc)
    ∧ (∀ line rest acc p0 p1, splitOnEq (goTrim line) = some (p0, p1) →
        goTrim p1 = [] →
        parseAliasLines (line :: rest) acc = parseAliasLines rest acc)
    ∧ (∀ line rest acc p0 p1, splitOnEq (goTrim line) = some (p0, p1) →
        goTrim line ≠ [] → startsWithHash (goTrim line) = false →
        goTrim p0 ≠ [] → goTrim p1 ≠ [] →
        parseAliasLines (line :: rest) acc
          = parseAliasLines rest
              (mapSet acc (String.mk (goTrim p0))
                ((goFields (goTrim p1)).map String.mk))) := by
  refine ⟨?_, ?_, ?_, ?_, ?_, ?_, ?_, ?_, ?_⟩
  · intro f
    simp [ParseAliasFile]
  · intro fn f hf
    unfold ParseAliasFile
    rcases eq_or_ne fn "" with h | h
    · simp [h]
    · simp [h, hf]
  · intro fn f content hfn hf
    unfold ParseAliasFile
    simp [hfn, hf]
  · intro line rest acc h
    simp [parseAliasLines, h]
  · intro line rest acc h
    simp only [parseAliasLines, h]
    simp
  · intro line rest acc h
    rcases eq_or_ne (goTrim line) [] with he | he
    · simp [parseAliasLines, he]
    · cases hh : startsWithHash (goTrim line)
      · simp [parseAliasLines, he, hh, h]
      · simp [parseAliasLines, hh]
  · intro line rest acc p0 p1 h h0
    rcases eq_or_ne (goTrim line) [] with he | he
    · simp [parseAliasLines, he]
    · cases hh : startsWithHash (goTrim line)
      · simp [parseAliasLines, he, hh, h, h0]
      · simp [parseAliasLines, hh]
  · intro line rest acc p0 p1 h h1
    rcases eq_or_ne (goTrim line) [] with he | he
    · simp [parseAliasLines, he]
    · cases hh : startsWithHash (goTrim line)
      · rcases eq_or_ne (goTrim p0) [] with h0 | h0 <;>
          simp [parseAliasLines, he, hh, h, h0, h1]
      · simp [parseAliasLines, hh]
  · intro line rest acc p0 p1 h he hh h0 h1
    simp [parseAliasLines, he, hh, h, h0, h1]

/-- Witness for C8 on concrete lines: an unreadable file, a blank line, a
comment, a line without `=`, lines with empty name/value, and a good line. -/
theorem parseAliasFile_spec_witness :
    (ParseAliasFile "missing" (fun _ => none) = [])
    ∧ (parseAliasLines (" ".data :: []) [] = parseAliasLines [] [])
    ∧ (parseAliasLines ("# note".data :: []) [] = parseAliasLines [] [])
    ∧ (parseAliasLines ("no equals".data :: []) [] = parseAliasLines [] [])
    ∧ (parseAliasLines (" = v".data :: []) [] = parseAliasLines [] [])
    ∧ (parseAliasLines ("n = ".data :: []) [] = parseAliasLines [] [])
    ∧ (parseAliasLines ("def = defenestrate".data :: []) []
        = parseAliasLines []
            (mapSet [] (String.mk "def".data)
              ((goFields "defenestrate".data).map String.mk))) := by
  have h := parseAliasFile_spec
  refine ⟨h.2.1 "missing" (fun _ => none) rfl,
    h.2.2.2.1 " ".data [] [] rfl,
    h.2.2.2.2.1 "# note".data [] [] rfl,
    h.2.2.2.2.2.1 "no equals".data [] [] rfl,
    h.2.2.2.2.2.2.1 " = v".data [] [] "".data " v".data ?_ rfl,
    h.2.2.2.2.2.2.2.1 "n = ".data [] [] "n ".data "".data ?_ rfl,
    ?_⟩
  · rfl
  · rfl
  · exact h.2.2.2.2.2.2.2.2 "def = defenestrate".data [] []
      "def ".data " defenestrate".data rfl (by decide) rfl (by decide) (by decide)

/-! ### Claim C9: exactly one deprecation warning, before the handler runs -/

/-- C9: when the selected reference carries a check with `Deprecated() =
(true, replacement)`, `Run` emits exactly one warning line naming the
replacement, immediately before invoking the subcommand; a reference with no
check never produces a warning. -/
theorem run_deprecation_warning (c : SuperCommand) (act : commandReference)
    (hdesc : c.showDescription = false) (hact : c.action = some act) :
    (∀ ch, act.check = some ch → ch.deprecatedFlag = true →
      ∃ pre, c.RunEvents = pre ++
          [RunEvent.warnedDeprecated
            ("WARNING: \"" ++ act.name ++ "\" is deprecated, please use \""
              ++ ch.replacement ++ "\""),
           RunEvent.ranCommand act.command.id]
        ∧ (∀ s, RunEvent.warnedDeprecated s ∉ pre))
    ∧ (act.check = none → ∀ s, RunEvent.warnedDeprecated s ∉ c.RunEvents) := by
  constructor
  · intro ch hch hdep
    have hd : act.Deprecated = (true, ch.replacement) := by
      simp [commandReference.Deprecated, hch, hdep]
    cases hl : c.hasLog <;> cases hn : c.hasNotifyRun
    · exact ⟨[], by simp [SuperCommand.RunEvents, hdesc, hact, hl, hn, hd], by simp⟩
    · exact ⟨[RunEvent.notifiedRun
          (if c.usagePref ≠ "" && c.usagePref ≠ c.Name
            then c.usagePref ++ " " ++ c.Name else c.Name)],
        by simp [SuperCommand.RunEvents, hdesc, hact, hl, hn, hd], by simp⟩
    · exact ⟨[RunEvent.logStarted],
        by simp [SuperCommand.RunEvents, hdesc, hact, hl, hn, hd], by simp⟩
    · exact ⟨[RunEvent.logStarted,
          RunEvent.notifiedRun
            (if c.usagePref ≠ "" && c.usagePref ≠ c.Name
              then c.usagePref ++ " " ++ c.Name else c.Name)],
        by simp [SuperCommand.RunEvents, hdesc, hact, hl, hn, hd], by simp⟩
  · intro hch s
    have hd : act.Deprecated = (false, "") := by
      simp [commandReference.Deprecated, hch]
    cases hl : c.hasLog <;> cases hn : c.hasNotifyRun <;>
      simp [SuperCommand.RunEvents, hdesc, hact, hl, hn, hd]

/-- Witness for C9: running the deprecated `old-cmd` warns once (naming
`new-cmd`) right before the handler, and running plain `foo` never warns. -/
theorem run_deprecation_warning_witness :
    (∃ pre, wRunSuper.RunEvents = pre ++
        [RunEvent.warnedDeprecated
          ("WARNING: \"" ++ "old-cmd" ++ "\" is deprecated, please use \""
            ++ "new-cmd" ++ "\""),
         RunEvent.ranCommand 7]
      ∧ (∀ s, RunEvent.warnedDeprecated s ∉ pre))
    ∧ (∀ s, RunEvent.warnedDeprecated s ∉ wRunPlain.RunEvents) := by
  have h1 := run_deprecation_warning wRunSuper wDepRef rfl rfl
  have h2 := run_deprecation_warning wRunPlain wFooRef rfl rfl
  exact ⟨h1.1 wDepCheck rfl rfl, h2.2 rfl⟩

/-! ### Claim C2: the fuzzy match -/

theorem leM_refl (p : String × Nat) : leM p p := Or.inr ⟨rfl, le_refl _⟩

theorem leM_trans (a b c : String × Nat) (h1 : leM a b) (h2 : leM b c) :
    leM a c := by
  rcases h1 with h1 | ⟨e1, s1⟩ <;> rcases h2 with h2 | ⟨e2, s2⟩
  · exact Or.inl (h1.trans h2)
  · exact Or.inl (e2 ▸ h1)
  · exact Or.inl (e1 ▸ h2)
  · exact Or.inr ⟨e1.trans e2, s1.trans s2⟩

/-- The Go comparator rejects `p` against `q` exactly when `q` is no worse
than `p`. -/
theorem closerMatch_false_iff (p q : String × Nat) :
    closerMatch p q = false ↔ leM q p := by
  unfold closerMatch leM
  split_ifs with h1 h2
  · constructor
    · intro h; exact absurd h (by simp)
    · rintro (h | ⟨e, -⟩) <;> omega
  · constructor
    · intro _; exact Or.inl h2
    · intro _; rfl
  · have e : p.2 = q.2 := by omega
    constructor
    · intro hf
      exact Or.inr ⟨e.symm, not_lt.mp (of_decide_eq_false hf)⟩
    · rintro (h | ⟨-, hle⟩)
      · exact absurd h (by omega)
      · exact decide_eq_false (not_lt.mpr hle)

theorem closerMatch_true_leM (p q : String × Nat)
    (h : closerMatch p q = true) : leM p q := by
  unfold closerMatch at h
  split_ifs at h with h1 h2
  · exact Or.inl h1
  · have e : p.2 = q.2 := by omega
    exact Or.inr ⟨e, le_of_lt (of_decide_eq_true h)⟩

/-- The fold in `FindClosestSubCommand` returns an element of the list. -/
theorem foldBest_mem (ms : List (String × Nat)) :
    ∀ m, ms.foldl (fun acc p => if closerMatch p acc then p else acc) m ∈ m :: ms := by
  induction ms with
  | nil => intro m; simp
  | cons p ms ih =>
    intro m
    simp only [List.foldl_cons]
    cases hc : closerMatch p m <;> simp only [hc, Bool.false_eq_true, if_false, if_true]
    · rcases List.mem_cons.mp (ih m) with h | h
      · simp [h]
      · simp [List.mem_cons, Or.inr (Or.inr h)]
    · rcases List.mem_cons.mp (ih p) with h | h
      · simp [h]
      · simp [List.mem_cons, Or.inr (Or.inr h)]

/-- The fold in `FindClosestSubCommand` returns a minimum: smallest distance,
ties broken by the lexicographically smallest name. -/
theorem foldBest_min (ms : List (String × Nat)) :
    ∀ m q, q ∈ m :: ms →
      leM (ms.foldl (fun acc p => if closerMatch p acc then p else acc) m) q := by
  induction ms with
  | nil =>
    intro m q hq
    rcases List.mem_cons.mp hq with h | h
    · subst h; simp [leM_refl]
    · exact absurd h (by simp)
  | cons p ms ih =>
    intro m q hq
    simp only [List.foldl_cons]
    cases hc : closerMatch p m <;> simp only [hc, Bool.false_eq_true, if_false, if_true]
    · have hmp : leM m p := (closerMatch_false_iff p m).mp hc
      rcases List.mem_cons.mp hq with h | h
      · rw [h]
        exact ih m m (List.mem_cons_self _ _)
      rcases List.mem_cons.mp h with h2 | h2
      · rw [h2]
        exact leM_trans _ m p (ih m m (List.mem_cons_self _ _)) hmp
      · exact ih m q (List.mem_cons_of_mem _ h2)
    · have hpm : leM p m := closerMatch_true_leM p m hc
      rcases List.mem_cons.mp hq with h | h
      · rw [h]
        exact leM_trans _ p m (ih p p (List.mem_cons_self _ _)) hpm
      rcases List.mem_cons.mp h with h2 | h2
      · rw [h2]
        exact ih p p (List.mem_cons_self _ _)
      · exact ih p q (List.mem_cons_of_mem _ h2)

/-- C2 (amended): `FindClosestSubCommand` computes the distances to every
registered name, selects the minimum (ties by lexicographically smallest
name), and returns that candidate exactly when the candidate name is
*nonempty* and its distance is strictly below `len(candidateName) + 1`; in
particular `hlp` against `{help, list, status}` yields `help`. -/
theorem findClosest_amended (c : SuperCommand) (name : String)
    (m b : String × Nat) (ms : List (String × Nat))
    (hm : c.subcmds.map (fun nr => (nr.1, levenshteinDistanceS name nr.1)) = m :: ms)
    (hb : ms.foldl (fun acc p => if closerMatch p acc then p else acc) m = b) :
    b ∈ m :: ms
    ∧ (∀ q ∈ m :: ms, leM b q)
    ∧ (b.1 ≠ "" ∧ b.2 < b.1.length + 1 →
        ∃ r, c.subcmds.lookup b.1 = some r
          ∧ c.FindClosestSubCommand name = some (b.1, r.command))
    ∧ (¬(b.1 ≠ "" ∧ b.2 < b.1.length + 1) → c.FindClosestSubCommand name = none)
    ∧ (∀ (d : SuperCommand) (nm : String), d.subcmds = [] →
        d.FindClosestSubCommand nm = none)
    ∧ fuzzySuper.FindClosestSubCommand "hlp" = some ("help", helpCmd) := by
  have hmem : b ∈ m :: ms := hb ▸ foldBest_mem ms m
  have hkey : b.1 ∈ c.subcmds.map Prod.fst := by
    have : b ∈ c.subcmds.map (fun nr => (nr.1, levenshteinDistanceS name nr.1)) := by
      rw [hm]; exact hmem
    rcases List.mem_map.mp this with ⟨nr, hnr, heq⟩
    exact List.mem_map.mpr ⟨nr, hnr, by rw [← heq]⟩
  obtain ⟨r, hr⟩ := lookup_mem_keys c.subcmds b.1 hkey
  refine ⟨hmem, fun q hq => hb ▸ foldBest_min ms m q hq, ?_, ?_, ?_, rfl⟩
  · rintro ⟨hne, hlt⟩
    refine ⟨r, hr, ?_⟩
    unfold SuperCommand.FindClosestSubCommand
    rw [hm]
    simp only [hb, hr]
    simp [hne, hlt]
  · intro hcond
    unfold SuperCommand.FindClosestSubCommand
    rw [hm]
    simp only [hb, hr]
    rcases eq_or_ne b.1 "" with he | he
    · simp [he]
    · have hge : ¬ b.2 < b.1.length + 1 := fun hlt => hcond ⟨he, hlt⟩
      simp [he, hge]
  · intro d nm hd
    unfold SuperCommand.FindClosestSubCommand
    rw [hd]
    rfl

/-- Counterexample to C2 as stated: in a registry whose only registered name
is the empty string, the minimal candidate for the name `""` is `""` with
distance `0 < len("") + 1`, yet `FindClosestSubCommand` reports no close
match (the Go code also requires `matchedName != ""`). -/
theorem findClosest_claim_counterexample :
    emptyNameSuper.subcmds.map
        (fun nr => (nr.1, levenshteinDistanceS "" nr.1)) = [("", 0)]
    ∧ levenshteinDistanceS "" "" < String.length "" + 1
    ∧ emptyNameSuper.FindClosestSubCommand "" = none :=
  ⟨rfl, by decide, rfl⟩

/-- Witness for the amended C2 on the `{help, list, status}` registry. -/
theorem findClosest_amended_witness :
    ("help", 1) ∈ [("help", (1 : Nat)), ("list", 4), ("status", 6)]
    ∧ (∀ q ∈ [("help", (1 : Nat)), ("list", 4), ("status", 6)], leM ("help", 1) q)
    ∧ (∃ r, fuzzySuper.subcmds.lookup "help" = some r
        ∧ fuzzySuper.FindClosestSubCommand "hlp" = some ("help", r.command)) := by
  have h := findClosest_amended fuzzySuper "hlp" ("help", 1) ("help", 1)
    [("list", 4), ("status", 6)] rfl rfl
  exact ⟨h.1, h.2.1, h.2.2.1 (by exact ⟨by decide, by decide⟩)⟩

end JujuCmd
